import Mathlib

/-!
# Verification of the Runway DDL parsing / resolution / layout core

Shallow embedding of the core pipeline of the Runway PostgreSQL DDL
visualizer (`src/parser/index.js` and the layout code of
`SchemaView.jsx`), together with theorems settling the specification
claims about it.

The regex front end of the parser is embedded at the capture level: each
regex that classifies a fragment of input (a table-body part, a column
constraint list, a statement) is represented by an inductive datatype
whose constructors are the regex alternatives and whose fields are the
capture groups.  Everything the JavaScript does *after* a regex has
matched (identifier cleaning, defaulting, accumulation, merging,
resolution) is translated function by function.
-/

namespace Runway

/-! ## Identifier and string helpers (`cleanIdentifier`, value cleaning) -/

/-- The apostrophe character (used by `stripTicks` below). -/
def tickChar : Char := Char.ofNat 39

/-- JavaScript `String.prototype.trim`: strip leading and trailing
whitespace.  Implemented over the character list so that it evaluates
inside the kernel. -/
def strTrim (s : String) : String :=
  String.mk
    (((s.data.dropWhile Char.isWhitespace).reverse.dropWhile Char.isWhitespace).reverse)

/-- Does the string start with the character `c`? -/
def strStartsWithChar (c : Char) (s : String) : Bool :=
  match s.data with
  | [] => false
  | a :: _ => a == c

/-- Does the string end with the character `c`? -/
def strEndsWithChar (c : Char) (s : String) : Bool :=
  match s.data.getLast? with
  | some a => a == c
  | none => false

/-- Drop the first character. -/
def strDropFirst (s : String) : String := String.mk (s.data.drop 1)

/-- Drop the last character. -/
def strDropLast (s : String) : String := String.mk s.data.dropLast

/-- JavaScript `String.prototype.toUpperCase` (ASCII). -/
def strToUpper (s : String) : String := String.mk (s.data.map Char.toUpper)

/-- The suffix after the last dot, mirroring
`cleaned.split('.').pop()` on a string containing a dot. -/
def afterLastDot (s : String) : String :=
  String.mk ((s.data.reverse.takeWhile (fun c => c ≠ '.')).reverse)

/-- Strip one leading and one trailing double quote, mirroring the
JavaScript `identifier.replace(/^"|"$/g, '')`. -/
def stripOuterQuotes (s : String) : String :=
  let s1 := if strStartsWithChar '"' s then strDropFirst s else s
  if strEndsWithChar '"' s1 then strDropLast s1 else s1

/-- `cleanIdentifier` from `src/parser/index.js`: trim, strip quotes, and
reduce a schema-qualified `schema.table` name to its trailing component
(JavaScript `cleaned.split('.').pop()`). -/
def cleanIdentifier (identifier : String) : String :=
  let cleaned := stripOuterQuotes (strTrim identifier)
  if cleaned.data.contains '.' then afterLastDot cleaned
  else cleaned

/-- Strip one leading and one trailing single quote from an enum value
literal, mirroring `v.trim().replace(/^'|'$/g, '')` in `parseTypes`. -/
def stripTicks (s : String) : String :=
  let s1 := if strStartsWithChar tickChar s then strDropFirst s else s
  if strEndsWithChar tickChar s1 then strDropLast s1 else s1

/-! ## Data-type normalization (`normalizeDataType`)

The JavaScript collapses whitespace runs and replaces the *first*
case-insensitive occurrence of each verbose spelling. -/

/-- Collapse every run of whitespace characters into a single space,
mirroring `dataType.replace(/\s+/g, ' ')`.  The boolean flag records
whether the previous character was whitespace, so each maximal
whitespace run contributes exactly one space. -/
def collapseWsAux : Bool → List Char → List Char
  | _, [] => []
  | prevWs, c :: rest =>
    if c.isWhitespace then
      if prevWs then collapseWsAux true rest
      else ' ' :: collapseWsAux true rest
    else c :: collapseWsAux false rest

/-- String version of `collapseWsAux`. -/
def collapseWs (s : String) : String := String.mk (collapseWsAux false s.data)

/-- Case-insensitive prefix test on character lists. -/
def ciPrefix : List Char → List Char → Bool
  | [], _ => true
  | _ :: _, [] => false
  | p :: ps, h :: hs => (p.toUpper == h.toUpper) && ciPrefix ps hs

/-- Index of the first case-insensitive occurrence of `pat` in `hay`,
starting the count at `i`. -/
def findCI (pat : List Char) : List Char → Nat → Option Nat
  | [], i => if pat.isEmpty then some i else none
  | h :: rest, i =>
    if ciPrefix pat (h :: rest) then some i else findCI pat rest (i + 1)

/-- Replace the first case-insensitive occurrence of `pat` by `repl`,
mirroring the JavaScript `String.replace(/pat/i, repl)`. -/
def replaceFirstCI (s pat repl : String) : String :=
  match findCI pat.data s.data 0 with
  | none => s
  | some i => String.mk (s.data.take i ++ repl.data ++ s.data.drop (i + pat.data.length))

/-- `normalizeDataType` from `src/parser/index.js`. -/
def normalizeDataType (dataType : String) : String :=
  strTrim (replaceFirstCI (replaceFirstCI (replaceFirstCI (collapseWs dataType)
      "CHARACTER VARYING" "VARCHAR") "INTEGER" "INT") "BOOLEAN" "BOOL")

/-! ## Entity records (the schema data model) -/

/-- The inline foreign-key descriptor stored on a column
(`column.references` in the JavaScript). -/
structure ColumnRef where
  table : String
  columns : List String
deriving Repr, DecidableEq

/-- A parsed column record, as produced by `parseColumn`. -/
structure Column where
  name : String
  dataType : String
  nullable : Bool
  defaultValue : Option String
  isUnique : Bool
  isPrimaryKey : Bool
  references : Option ColumnRef
deriving Repr, DecidableEq

/-- A foreign-key record. -/
structure ForeignKey where
  constraintName : Option String
  columns : List String
  referencedTable : String
  referencedColumns : List String
deriving Repr, DecidableEq

/-- A table record. -/
structure Table where
  name : String
  columns : List Column
  primaryKey : List String
  foreignKeys : List ForeignKey
  uniqueConstraints : List (List String)
  sourceFile : String
deriving Repr, DecidableEq

/-- An enum type record, as produced by `parseTypes`. -/
structure EnumType where
  name : String
  values : List String
  sourceFile : String
deriving Repr, DecidableEq

/-- A sequence record, as produced by `parseSequences`. -/
structure SequenceRec where
  name : String
  start : Nat
  increment : Nat
  sourceFile : String
deriving Repr, DecidableEq

/-- The unified schema object returned by `parseDDL` / `parseAllFiles`. -/
structure Schema where
  tables : List Table
  types : List EnumType
  sequences : List SequenceRec
deriving Repr, DecidableEq

/-- Diagnostics emitted by the parse / resolution pipeline: the
`console.error` in the catch of `parseAllFiles` and the `console.warn`
in `resolveForeignKeys`. -/
inductive Diag where
  | parseFailure (path : String) (message : String)
  | unknownFkTarget (tableName : String) (refTable : String)
deriving Repr, DecidableEq

/-! ## Column parsing (`parseColumn`)

The column regex of `parseColumn` captures the column name, the data
type, and the trailing constraints text.  `ColumnDef` records those
captures; the constraints text is carried as its list of
whitespace-separated words, together with the captures of the two inner
regexes (`DEFAULT ...` and `REFERENCES ...`) that extract structured
data from the same text. -/

/-- Capture of the inline `REFERENCES table (cols)` regex: the raw table
name and, when the parenthesized group matched, the raw column list. -/
structure RefCapture where
  table : String
  colsOpt : Option (List String)
deriving Repr, DecidableEq

/-- Captures of the column-definition regex of `parseColumn`. -/
structure ColumnDef where
  rawName : String
  rawType : String
  constraintTokens : List String
  defaultCapture : Option String
  refCapture : Option RefCapture
deriving Repr, DecidableEq

/-- `/NOT\s+NULL/i` on the constraints text: two adjacent words `NOT`
`NULL`, case-insensitively. -/
def hasAdjacentWords (a b : String) : List String → Bool
  | x :: y :: rest =>
    ((strToUpper x == a) && (strToUpper y == b)) || hasAdjacentWords a b (y :: rest)
  | _ => false

/-- Test for the `NOT NULL` marker. -/
def hasNotNull (tokens : List String) : Bool := hasAdjacentWords "NOT" "NULL" tokens

/-- `/\bNULL\b/i`: some word of the constraints text is `NULL`. -/
def hasNullWord (tokens : List String) : Bool :=
  tokens.any (fun t => strToUpper t == "NULL")

/-- Test for the `PRIMARY KEY` marker. -/
def hasPrimaryKeyMarker (tokens : List String) : Bool := hasAdjacentWords "PRIMARY" "KEY" tokens

/-- `/\bUNIQUE\b/i`. -/
def hasUniqueWord (tokens : List String) : Bool :=
  tokens.any (fun t => strToUpper t == "UNIQUE")

/-- `parseColumn` from `src/parser/index.js`, applied to the captures of
its column regex (a part whose regex did not match is represented
upstream by `TablePart.unparsable` and never reaches this function). -/
def parseColumn (d : ColumnDef) : Column :=
  let name := cleanIdentifier d.rawName
  let dataType := normalizeDataType (strTrim d.rawType)
  let c : Column :=
    { name := name, dataType := dataType, nullable := true, defaultValue := none,
      isUnique := false, isPrimaryKey := false, references := none }
  let c := if hasNotNull d.constraintTokens then { c with nullable := false } else c
  let c := if hasNullWord d.constraintTokens && !hasNotNull d.constraintTokens then
      { c with nullable := true } else c
  let c := match d.defaultCapture with
    | some v => { c with defaultValue := some v }
    | none => c
  let c := if hasPrimaryKeyMarker d.constraintTokens then
      { c with isPrimaryKey := true, nullable := false } else c
  let c := if hasUniqueWord d.constraintTokens then { c with isUnique := true } else c
  match d.refCapture with
  | some r =>
    let refCols :=
      match r.colsOpt with
      | some cols => cols.map (fun s => cleanIdentifier (strTrim s))
      | none => [name]
    { c with references := some ⟨cleanIdentifier r.table, refCols⟩ }
  | none => c

/-! ## Table-body parsing (`parseTableBody`)

`splitTableBody` cuts the body into comma-separated parts; each part is
then classified by the first matching regex among PRIMARY KEY / FOREIGN
KEY / UNIQUE / column definition.  `TablePart` represents that
classification together with the capture groups. -/

/-- One comma-separated part of a `CREATE TABLE` body, as classified by
the regex cascade of `parseTableBody`.  `unparsable` stands for a part
matched by none of the regexes (including the column regex), which the
JavaScript skips. -/
inductive TablePart where
  | pkConstraint (rawCols : List String)
  | fkConstraint (rawName : Option String) (rawCols : List String)
      (rawRefTable : String) (rawRefColsOpt : Option (List String))
  | uniqueConstraint (rawCols : List String)
  | columnDef (d : ColumnDef)
  | unparsable
deriving Repr, DecidableEq

/-- One step of the loop body of `parseTableBody`. -/
def applyTablePart (t : Table) (part : TablePart) : Table :=
  match part with
  | .pkConstraint rawCols =>
    { t with primaryKey := t.primaryKey ++ rawCols.map (fun c => cleanIdentifier (strTrim c)) }
  | .fkConstraint rawName rawCols rawRefTable rawRefColsOpt =>
    let columns := rawCols.map (fun c => cleanIdentifier (strTrim c))
    let fk : ForeignKey :=
      { constraintName := rawName.map cleanIdentifier,
        columns := columns,
        referencedTable := cleanIdentifier rawRefTable,
        referencedColumns :=
          (match rawRefColsOpt with
            | some rcs => rcs.map (fun c => cleanIdentifier (strTrim c))
            | none => columns) }
    { t with foreignKeys := t.foreignKeys ++ [fk] }
  | .uniqueConstraint rawCols =>
    { t with uniqueConstraints :=
        t.uniqueConstraints ++ [rawCols.map (fun c => cleanIdentifier (strTrim c))] }
  | .columnDef d =>
    let column := parseColumn d
    let t1 := { t with columns := t.columns ++ [column] }
    let t2 := if column.isPrimaryKey then
        { t1 with primaryKey := t1.primaryKey ++ [column.name] } else t1
    match column.references with
    | some r =>
      { t2 with foreignKeys := t2.foreignKeys ++
          [{ constraintName := none, columns := [column.name],
             referencedTable := r.table, referencedColumns := r.columns }] }
    | none => t2
  | .unparsable => t

/-- `parseTableBody` from `src/parser/index.js`. -/
def parseTableBody (parts : List TablePart) (t : Table) : Table :=
  parts.foldl applyTablePart t

/-! ## Statement level (`parseTypes`, `parseSequences`, `parseTables`,
`parseAlterTables`, `parseDDL`, `parseAllFiles`)

A file's cleaned content is represented as the ordered list of
statements that the statement-level regexes of `parseDDL` extract from
it, each with its capture groups. -/

/-- A statement recognized by the statement-level regexes. -/
inductive Statement where
  | createType (rawName : String) (rawValues : List String)
  | createSequence (rawName : String) (startOpt : Option Nat) (incOpt : Option Nat)
  | createTable (rawName : String) (parts : List TablePart)
  | alterAddFk (rawTable : String) (rawConstraint : Option String)
      (rawCols : List String) (rawRefTable : String)
      (rawRefColsOpt : Option (List String))
deriving Repr, DecidableEq

/-- `parseTypes`: one enum record per `CREATE TYPE ... AS ENUM`
statement, in content order. -/
def parseTypes (stmts : List Statement) (sourceFile : String) : List EnumType :=
  stmts.filterMap fun s =>
    match s with
    | .createType rawName rawValues =>
      some { name := cleanIdentifier rawName,
             values := (rawValues.map (fun v => stripTicks (strTrim v))).filter
               (fun v => v.length > 0),
             sourceFile := sourceFile }
    | _ => none

/-- `parseSequences`: one sequence record per `CREATE SEQUENCE`
statement; `START` and `INCREMENT` default to 1. -/
def parseSequences (stmts : List Statement) (sourceFile : String) : List SequenceRec :=
  stmts.filterMap fun s =>
    match s with
    | .createSequence rawName startOpt incOpt =>
      some { name := cleanIdentifier rawName,
             start := startOpt.getD 1,
             increment := incOpt.getD 1,
             sourceFile := sourceFile }
    | _ => none

/-- `parseTables`: one table record per `CREATE TABLE` statement, its
body folded through `parseTableBody`. -/
def parseTables (stmts : List Statement) (sourceFile : String) : List Table :=
  stmts.filterMap fun s =>
    match s with
    | .createTable rawName parts =>
      some (parseTableBody parts
        { name := cleanIdentifier rawName, columns := [], primaryKey := [],
          foreignKeys := [], uniqueConstraints := [], sourceFile := sourceFile })
    | _ => none

/-- `tables.find(t => t.name === tableName)` followed by a push onto its
`foreignKeys`: append `fk` to the first table named `tableName`, leaving
the list unchanged when no table matches. -/
def addFkToFirst (tables : List Table) (tableName : String) (fk : ForeignKey) :
    List Table :=
  match tables with
  | [] => []
  | t :: rest =>
    if t.name = tableName then { t with foreignKeys := t.foreignKeys ++ [fk] } :: rest
    else t :: addFkToFirst rest tableName fk

/-- The foreign-key record an `ALTER TABLE ... ADD ... FOREIGN KEY`
statement builds (the field computations of `parseAlterTables`). -/
def alterFk (rawConstraint : Option String) (rawCols : List String)
    (rawRefTable : String) (rawRefColsOpt : Option (List String)) : ForeignKey :=
  let columns := rawCols.map (fun c => cleanIdentifier (strTrim c))
  { constraintName := rawConstraint.map cleanIdentifier,
    columns := columns,
    referencedTable := cleanIdentifier rawRefTable,
    referencedColumns :=
      (match rawRefColsOpt with
        | some rcs => rcs.map (fun c => cleanIdentifier (strTrim c))
        | none => columns) }

/-- One iteration of the `parseAlterTables` loop: an alter statement
adds its foreign key to the first table whose name matches; every other
statement kind is ignored by this loop. -/
def alterStep (tables : List Table) (s : Statement) : List Table :=
  match s with
  | .alterAddFk rawTable rawConstraint rawCols rawRefTable rawRefColsOpt =>
    addFkToFirst tables (cleanIdentifier rawTable)
      (alterFk rawConstraint rawCols rawRefTable rawRefColsOpt)
  | _ => tables

/-- `parseAlterTables` from `src/parser/index.js`: apply every
`ALTER TABLE ... ADD ... FOREIGN KEY` statement of the content, in
order, against the given table list. -/
def parseAlterTables (stmts : List Statement) (tables : List Table) : List Table :=
  stmts.foldl alterStep tables

/-- `parseDDL` from `src/parser/index.js`: parse one file's statements
into a partial schema; note that `parseAlterTables` is applied to this
file's own tables only. -/
def parseDDL (stmts : List Statement) (sourceFile : String) : Schema :=
  let types := parseTypes stmts sourceFile
  let sequences := parseSequences stmts sourceFile
  let tables := parseTables stmts sourceFile
  let tables := parseAlterTables stmts tables
  { tables := tables, types := types, sequences := sequences }

/-- `resolveForeignKeys` from `src/parser/index.js`: drop every foreign
key whose referenced table is not in the schema's table-name set,
emitting one warning per dropped key.  Returned as (new schema,
warnings); the JavaScript mutates in place and logs via `console.warn`. -/
def resolveForeignKeys (schema : Schema) : Schema × List Diag :=
  let tableNames := schema.tables.map (fun t => t.name)
  let tables := schema.tables.map fun t =>
    { t with foreignKeys :=
        t.foreignKeys.filter (fun fk => tableNames.contains fk.referencedTable) }
  let diags := schema.tables.flatMap fun t =>
    (t.foreignKeys.filter (fun fk => !tableNames.contains fk.referencedTable)).map
      (fun fk => Diag.unknownFkTarget t.name fk.referencedTable)
  ({ tables := tables, types := schema.types, sequences := schema.sequences }, diags)

/-- One input file of `parseAllFiles`.  Its content is the result of the
statement-level front end: either the statement list, or the exception
caught by the `try`/`catch` of `parseAllFiles`. -/
structure SourceFile where
  path : String
  content : Except String (List Statement)
deriving Repr

/-- The partial schema a file contributes inside the loop of
`parseAllFiles`: its `parseDDL` result, or the empty schema when the
parse threw. -/
def fileSchema (f : SourceFile) : Schema :=
  match f.content with
  | .ok stmts => parseDDL stmts f.path
  | .error _ => { tables := [], types := [], sequences := [] }

/-- The loop body of `parseAllFiles`: push a file's partial schema onto
the accumulated one, or record the caught failure as a diagnostic and
continue (`console.error` in the catch). -/
def mergeStep (acc : Schema × List Diag) (file : SourceFile) : Schema × List Diag :=
  match file.content with
  | .ok stmts =>
    let fs := parseDDL stmts file.path
    ({ tables := acc.1.tables ++ fs.tables,
       types := acc.1.types ++ fs.types,
       sequences := acc.1.sequences ++ fs.sequences }, acc.2)
  | .error e => (acc.1, acc.2 ++ [Diag.parseFailure file.path e])

/-- `parseAllFiles` from `src/parser/index.js`: concatenate every
file's partial schema (recording a parse-failure diagnostic and
skipping the file when its parse threw), then run
`resolveForeignKeys`.  Returns the resolved schema together with all
diagnostics, loop diagnostics first. -/
def parseAllFiles (files : List SourceFile) : Schema × List Diag :=
  let merged := files.foldl mergeStep ({ tables := [], types := [], sequences := [] }, [])
  let resolved := resolveForeignKeys merged.1
  (resolved.1, merged.2 ++ resolved.2)

/-! ## Layout engine (`SchemaView.jsx`)

Node sizing constants and the saved-positions-versus-recompute decision
of the layout effect.  The dagre layout algorithm itself is an external
library; it enters the embedding as an opaque function parameter. -/

/-- `NODE_WIDTH` constant of `SchemaView.jsx`. -/
def NODE_WIDTH : Nat := 220

/-- `TYPE_NODE_WIDTH` constant of `SchemaView.jsx`. -/
def TYPE_NODE_WIDTH : Nat := 180

/-- `HEADER_HEIGHT` constant of `SchemaView.jsx`. -/
def HEADER_HEIGHT : Nat := 32

/-- `ROW_HEIGHT` constant of `SchemaView.jsx`. -/
def ROW_HEIGHT : Nat := 24

/-- `NODE_PADDING` constant of `SchemaView.jsx`. -/
def NODE_PADDING : Nat := 12

/-- `calculateNodeHeight` from `SchemaView.jsx`. -/
def calculateNodeHeight (table : Table) : Nat :=
  HEADER_HEIGHT + table.columns.length * ROW_HEIGHT + NODE_PADDING

/-- `calculateTypeHeight` from `SchemaView.jsx`. -/
def calculateTypeHeight (ty : EnumType) : Nat :=
  HEADER_HEIGHT + ty.values.length * ROW_HEIGHT + NODE_PADDING

/-- A 2-D node position. -/
structure Pos where
  x : Int
  y : Int
deriving Repr, DecidableEq

/-- A layout node: a React Flow node reduced to its identifier and
position. -/
structure LayoutNode where
  id : String
  position : Pos
deriving Repr, DecidableEq

/-- Lookup in the persisted `nodePositions` mapping
(`savedPositions[node.id]`); the mapping is keyed by node identifier. -/
def lookupPos (saved : List (String × Pos)) (id : String) : Option Pos :=
  (saved.find? (fun p => p.1 == id)).map (fun p => p.2)

/-- The layout decision of the `SchemaView.jsx` effect (non-grouped
branch, lines 606-621): when every current node has a saved position
(`allNodesHavePositions`) and the saved mapping is non-empty, apply the
saved positions verbatim; otherwise run the layout algorithm
(`getLayoutedElements`, backed by dagre) from scratch. -/
def applySavedOrLayout (layoutAlg : List LayoutNode → List LayoutNode)
    (saved : List (String × Pos)) (nodes : List LayoutNode) : List LayoutNode :=
  let allNodesHavePositions := nodes.all (fun n => (lookupPos saved n.id).isSome)
  if allNodesHavePositions && decide (saved.length > 0) then
    nodes.map (fun n => { n with position := (lookupPos saved n.id).getD n.position })
  else layoutAlg nodes

/-! ## Structural analyzer: circular-dependency rule
(`detectCircularDependencies` / `normalizeCycle` of the schema
analyzer, staged alongside `src/contexts/SelectionContext.jsx`)

The JavaScript DFS mutates a shared `visited` set, a `cycles` array, a
`path` array pushed on entry and popped on exit, and a `recursionStack`
set that is kept exactly in sync with `path` (added on entry, deleted
on exit).  The embedding threads `visited` and `cycles` as state,
passes `path` as an argument (whose restoration on return is then
automatic), and tests `recursionStack` membership as membership in the
current `path`.  `fuel` bounds the recursion depth; since `dfs` is
entered at most once per node (it is guarded by `visited`), any value
above the table count is enough. -/

/-- An analysis issue as built by `detectCircularDependencies`; the
`severity` and `category` fields hold the analyzer's string constants
(`Severity.WARNING` is `'warning'`, `Category.RELATIONSHIPS` is
`'Relationships'`). -/
structure AnalysisIssue where
  severity : String
  category : String
  table : String
  tables : List String
  sourceFile : String
  message : String
  suggestion : String
deriving Repr, DecidableEq

/-- The adjacency list built by `detectCircularDependencies`: the map
entry for `node` collects, in table order, the referenced tables of the
foreign keys of every table named `node`; `adjacencyList.get(node) ||
[]` yields `[]` for a node with no entry. -/
def adjacencyList (tables : List Table) (node : String) : List String :=
  (tables.filter (fun t => t.name == node)).flatMap
    (fun t => t.foreignKeys.map (fun fk => fk.referencedTable))

/-- The inner `dfs(node, path)` of `detectCircularDependencies`.  The
state is (visited, cycles); an unvisited neighbor is recursed into, and
an edge into a node of the current path closes a cycle recorded as
`path.slice(path.indexOf(neighbor))` with the closing node appended. -/
def dfs (adj : String → List String) :
    Nat → String → List String → List String × List (List String) →
      List String × List (List String)
  | 0, _, _, st => st
  | Nat.succ fuel, node, path, st =>
    let path1 := path ++ [node]
    (adj node).foldl
      (fun (st : List String × List (List String)) neighbor =>
        if !st.1.contains neighbor then
          dfs adj fuel neighbor path1 st
        else if path1.contains neighbor then
          let cycleStart := path1.indexOf neighbor
          let cycle := path1.drop cycleStart ++ [neighbor]
          (st.1, st.2 ++ [cycle])
        else st)
      (st.1 ++ [node], st.2)

/-- Lexicographic comparison of character lists by code point
(JavaScript string `<`). -/
def charListLt : List Char → List Char → Bool
  | [], [] => false
  | [], _ :: _ => true
  | _ :: _, [] => false
  | a :: as, b :: bs =>
    if a.toNat < b.toNat then true
    else if b.toNat < a.toNat then false
    else charListLt as bs

/-- Lexicographic string order (JavaScript `nodes[i] < nodes[minIndex]`). -/
def strLt (a b : String) : Bool := charListLt a.data b.data

/-- The minimum-index loop of `normalizeCycle`: index of the
lexicographically smallest element (first occurrence), accumulator
form. -/
def minIndexAux : List String → Nat → Nat → String → Nat
  | [], _, best, _ => best
  | s :: rest, i, best, bestVal =>
    if strLt s bestVal then minIndexAux rest (i + 1) i s
    else minIndexAux rest (i + 1) best bestVal

/-- `normalizeCycle` from the schema analyzer: drop the closing
duplicate node, rotate so the lexicographically smallest node comes
first, and re-append the (new) first node to close the cycle again. -/
def normalizeCycle (cycle : List String) : List String :=
  let nodes := cycle.dropLast
  if nodes.length = 0 then cycle
  else
    let minIdx :=
      match nodes with
      | [] => 0
      | n0 :: rest => minIndexAux rest 1 0 n0
    let rotated := nodes.drop minIdx ++ nodes.take minIdx
    rotated ++ [rotated.headD ""]

/-- `Array.prototype.join(' -> ')`, building the dedup key `cycleKey`. -/
def joinArrow : List String → String
  | [] => ""
  | [x] => x
  | x :: xs => x ++ " -> " ++ joinArrow xs

/-- `[...new Set(list)]`: deduplicate preserving first occurrences. -/
def dedupStrings (l : List String) : List String :=
  l.foldl (fun acc s => if acc.contains s then acc else acc ++ [s]) []

/-- `detectCircularDependencies` from the schema analyzer: build the
adjacency list, run DFS from every not-yet-visited table in table
order, then report each discovered cycle once — normalized via
`normalizeCycle`, keyed by the joined `cycleKey` string against the
`reportedCycles` set — as a warning issue. -/
def detectCircularDependencies (schema : Schema) : List AnalysisIssue :=
  let adj := adjacencyList schema.tables
  let st := schema.tables.foldl
    (fun (st : List String × List (List String)) table =>
      if !st.1.contains table.name then
        dfs adj (schema.tables.length + 1) table.name [] st
      else st)
    ([], [])
  (st.2.foldl
    (fun (acc : List String × List AnalysisIssue) cycle =>
      let normalized := normalizeCycle cycle
      let cycleKey := joinArrow normalized
      if !acc.1.contains cycleKey then
        let involvedTables := schema.tables.filter (fun t => normalized.contains t.name)
        let sourceFiles := dedupStrings (involvedTables.map (fun t => t.sourceFile))
        let issue : AnalysisIssue :=
          { severity := "warning", category := "Relationships",
            table := normalized.headD "",
            tables := normalized.dropLast,
            sourceFile := sourceFiles.headD "",
            message := "Circular dependency detected: " ++ cycleKey,
            suggestion := "Circular dependencies can cause issues with data insertion order. Consider using nullable FKs or restructuring the schema." }
        (acc.1 ++ [cycleKey], acc.2 ++ [issue])
      else acc)
    ([], [])).2

end Runway


namespace Runway

/-! ## Characterization of `parseAllFiles` -/

/-- The schema obtained by concatenating every file's partial schema in
file order, a failing file contributing nothing. -/
def mergedSchema (files : List SourceFile) : Schema :=
  { tables := files.flatMap (fun f => (fileSchema f).tables),
    types := files.flatMap (fun f => (fileSchema f).types),
    sequences := files.flatMap (fun f => (fileSchema f).sequences) }

/-- The parse-failure diagnostics recorded by the loop of
`parseAllFiles`, in file order. -/
def parseDiags (files : List SourceFile) : List Diag :=
  files.filterMap fun f =>
    match f.content with
    | .ok _ => none
    | .error e => some (Diag.parseFailure f.path e)

/-- Unrolling the merge loop of `parseAllFiles`. -/
theorem foldl_mergeStep (files : List SourceFile) (s : Schema) (d : List Diag) :
    files.foldl mergeStep (s, d) =
      ({ tables := s.tables ++ (mergedSchema files).tables,
         types := s.types ++ (mergedSchema files).types,
         sequences := s.sequences ++ (mergedSchema files).sequences },
       d ++ parseDiags files) := by
  induction files generalizing s d with
  | nil => simp [mergedSchema, parseDiags]
  | cons f rest ih =>
    cases h : f.content with
    | ok stmts =>
      simp [List.foldl_cons, mergeStep, h, ih, mergedSchema, parseDiags, fileSchema]
    | error e =>
      simp [List.foldl_cons, mergeStep, h, ih, mergedSchema, parseDiags, fileSchema]

/-- `parseAllFiles` is: merge all per-file schemas, resolve, and report
the loop diagnostics followed by the resolution diagnostics. -/
theorem parseAllFiles_eq (files : List SourceFile) :
    parseAllFiles files =
      ((resolveForeignKeys (mergedSchema files)).1,
       parseDiags files ++ (resolveForeignKeys (mergedSchema files)).2) := by
  simp [parseAllFiles, foldl_mergeStep]

end Runway

namespace Runway

/-! ## Facts about `resolveForeignKeys` -/

/-- Total number of foreign keys across a table list. -/
def totalFks (tables : List Table) : Nat :=
  (tables.map (fun t => t.foreignKeys.length)).sum

/-- Does a diagnostic come from the dropped-foreign-key warning of
`resolveForeignKeys`? -/
def isUnknownFkDiag (d : Diag) : Bool :=
  match d with
  | .unknownFkTarget _ _ => true
  | _ => false

/-- A filter splits a list's length into kept and dropped parts. -/
theorem filter_partition_length {α : Type} (p : α → Bool) (l : List α) :
    (l.filter p).length + (l.filter (fun a => !p a)).length = l.length := by
  induction l with
  | nil => simp
  | cons a l ih => by_cases h : p a <;> simp [List.filter_cons, h] <;> omega

/-- Resolution does not change the table-name list. -/
theorem resolve_names (s : Schema) :
    (resolveForeignKeys s).1.tables.map (fun t => t.name)
      = s.tables.map (fun t => t.name) := by
  simp [resolveForeignKeys]

/-- The dropped-key diagnostics of one resolution pass are counted by
the difference of foreign-key totals, table list by table list. -/
theorem resolve_drop_count (p : ForeignKey → Bool) (g : Table → ForeignKey → Diag) :
    ∀ tables : List Table,
      (tables.flatMap (fun t => (t.foreignKeys.filter (fun fk => !p fk)).map (g t))).length
        + totalFks (tables.map
            (fun t => { t with foreignKeys := t.foreignKeys.filter p }))
        = totalFks tables := by
  intro tables
  induction tables with
  | nil => simp [totalFks]
  | cons t rest ih =>
    simp only [List.flatMap_cons, List.map_cons, totalFks, List.length_append,
      List.length_map, List.sum_cons] at ih ⊢
    have := filter_partition_length p t.foreignKeys
    omega

end Runway

namespace Runway

/-- Every diagnostic of the merge loop is a parse failure. -/
theorem parseDiags_all_failures (files : List SourceFile) :
    ∀ d ∈ parseDiags files, isUnknownFkDiag d = false := by
  intro d hd
  simp only [parseDiags, List.mem_filterMap] at hd
  obtain ⟨f, _, hf⟩ := hd
  cases h : f.content with
  | ok stmts => rw [h] at hf; simp at hf
  | error e => rw [h] at hf; simp at hf; simp [← hf, isUnknownFkDiag]

/-- Every diagnostic of `resolveForeignKeys` is a dropped-key warning. -/
theorem resolveDiags_all_unknown (s : Schema) :
    ∀ d ∈ (resolveForeignKeys s).2, isUnknownFkDiag d = true := by
  intro d hd
  simp only [resolveForeignKeys, List.mem_flatMap, List.mem_map] at hd
  obtain ⟨t, _, fk, _, rfl⟩ := hd
  rfl

end Runway

namespace Runway

/-- After resolution every remaining foreign key's target is a table
name of the resolved schema. -/
theorem resolve_no_dangling (s : Schema) :
    ∀ t ∈ (resolveForeignKeys s).1.tables, ∀ fk ∈ t.foreignKeys,
      (((resolveForeignKeys s).1.tables.map (fun tb => tb.name)).contains
        fk.referencedTable) = true := by
  intro t ht fk hfk
  rw [resolve_names]
  simp only [resolveForeignKeys, List.mem_map] at ht
  obtain ⟨t0, _, rfl⟩ := ht
  simp only [List.mem_filter] at hfk
  exact hfk.2

/-- C3: after resolution, a foreign key whose referenced table names no
table of the batch appears in zero `Table.foreignKeys`, and the number
of dropped-reference diagnostics equals the number of dropped foreign
keys (one per dropped reference). -/
theorem resolution_drops_dangling_one_diag_each (files : List SourceFile) :
    (∀ t ∈ (parseAllFiles files).1.tables, ∀ fk ∈ t.foreignKeys,
        (((parseAllFiles files).1.tables.map (fun tb => tb.name)).contains
          fk.referencedTable) = true)
  ∧ (parseAllFiles files).2.countP (fun d => isUnknownFkDiag d)
      + totalFks (parseAllFiles files).1.tables
      = totalFks (mergedSchema files).tables := by
  rw [parseAllFiles_eq]
  constructor
  · exact resolve_no_dangling _
  · rw [List.countP_append]
    have h1 : (parseDiags files).countP (fun d => isUnknownFkDiag d) = 0 := by
      rw [List.countP_eq_zero]
      intro d hd
      simp [parseDiags_all_failures files d hd]
    have h2 : ((resolveForeignKeys (mergedSchema files)).2).countP
          (fun d => isUnknownFkDiag d)
        = ((resolveForeignKeys (mergedSchema files)).2).length := by
      rw [List.countP_eq_length]
      intro d hd
      exact resolveDiags_all_unknown _ d hd
    rw [h1, h2]
    simp only [resolveForeignKeys, Nat.zero_add]
    exact resolve_drop_count _ _ _

end Runway

namespace Runway

/-- C7: foreign-key resolution is idempotent — re-running the
resolution pass on an already-resolved schema removes nothing, changes
nothing, and emits no diagnostic. -/
theorem resolveForeignKeys_idempotent (s : Schema) :
    resolveForeignKeys (resolveForeignKeys s).1 = ((resolveForeignKeys s).1, []) := by
  refine Prod.ext ?_ ?_
  · simp only [resolveForeignKeys, List.map_map, Function.comp_def,
      List.filter_filter]
    simp
  · simp only [resolveForeignKeys, List.map_map, Function.comp_def]
    rw [List.flatMap_eq_nil_iff]
    intro x hx
    simp only [List.mem_map] at hx
    obtain ⟨t, _, rfl⟩ := hx
    simp [List.filter_filter]

end Runway

namespace Runway

/-- C10: the resolution pass modifies only the `foreignKeys` field of
tables — table count and order, every other table field, and the
`types` and `sequences` lists are untouched, and each table's
`foreignKeys` becomes exactly the filter keeping the keys whose
referenced table is present. -/
theorem resolveForeignKeys_frame (s : Schema) :
    (resolveForeignKeys s).1.types = s.types
  ∧ (resolveForeignKeys s).1.sequences = s.sequences
  ∧ (resolveForeignKeys s).1.tables.length = s.tables.length
  ∧ (resolveForeignKeys s).1.tables.map (fun t => t.name)
      = s.tables.map (fun t => t.name)
  ∧ (resolveForeignKeys s).1.tables.map (fun t => t.columns)
      = s.tables.map (fun t => t.columns)
  ∧ (resolveForeignKeys s).1.tables.map (fun t => t.primaryKey)
      = s.tables.map (fun t => t.primaryKey)
  ∧ (resolveForeignKeys s).1.tables.map (fun t => t.uniqueConstraints)
      = s.tables.map (fun t => t.uniqueConstraints)
  ∧ (resolveForeignKeys s).1.tables.map (fun t => t.sourceFile)
      = s.tables.map (fun t => t.sourceFile)
  ∧ (resolveForeignKeys s).1.tables.map (fun t => t.foreignKeys)
      = s.tables.map (fun t => t.foreignKeys.filter
          (fun fk => (s.tables.map (fun tb => tb.name)).contains fk.referencedTable)) := by
  simp [resolveForeignKeys, List.map_map, Function.comp_def]

end Runway

namespace Runway

/-- C4: a parsed column is nullable exactly when neither a `NOT NULL`
nor a `PRIMARY KEY` marker occurs among its constraint words — so
`nullable` defaults to `true`, a bare `NULL` marker cannot re-enable
nullability on a primary-key column, and `isPrimaryKey = true` forces
`nullable = false` for every order and combination of markers. -/
theorem parseColumn_nullable_primaryKey (d : ColumnDef) :
    (parseColumn d).nullable
        = !(hasNotNull d.constraintTokens || hasPrimaryKeyMarker d.constraintTokens)
  ∧ ((parseColumn d).isPrimaryKey = true → (parseColumn d).nullable = false) := by
  unfold parseColumn
  cases hnn : hasNotNull d.constraintTokens <;>
    cases hpk : hasPrimaryKeyMarker d.constraintTokens <;>
    cases hn : hasNullWord d.constraintTokens <;>
    cases hu : hasUniqueWord d.constraintTokens <;>
    cases hdc : d.defaultCapture <;>
    cases hrc : d.refCapture <;>
    simp [hnn, hpk, hn, hu]

end Runway

namespace Runway

/-- C6: a table node's layout height is
`headerHeight + columnCount * rowHeight + padding` (value count in place
of column count for enum nodes), and a table with 5 columns gets height
`32 + 5 * 24 + 12 = 164`. -/
theorem node_height_formula :
    (∀ t : Table,
        calculateNodeHeight t = HEADER_HEIGHT + t.columns.length * ROW_HEIGHT + NODE_PADDING)
  ∧ (∀ ty : EnumType,
        calculateTypeHeight ty = HEADER_HEIGHT + ty.values.length * ROW_HEIGHT + NODE_PADDING)
  ∧ (∀ t : Table, t.columns.length = 5 → calculateNodeHeight t = 164) := by
  refine ⟨fun t => rfl, fun ty => rfl, fun t h => ?_⟩
  simp [calculateNodeHeight, h, HEADER_HEIGHT, ROW_HEIGHT, NODE_PADDING]

/-- Witness for `node_height_formula`: a concrete 5-column table
evaluates to height 164. -/
theorem node_height_formula_witness :
    calculateNodeHeight
      { name := "students",
        columns :=
          [{ name := "id", dataType := "INT", nullable := false, defaultValue := none,
             isUnique := false, isPrimaryKey := true, references := none },
           { name := "a", dataType := "TEXT", nullable := true, defaultValue := none,
             isUnique := false, isPrimaryKey := false, references := none },
           { name := "b", dataType := "TEXT", nullable := true, defaultValue := none,
             isUnique := false, isPrimaryKey := false, references := none },
           { name := "c", dataType := "TEXT", nullable := true, defaultValue := none,
             isUnique := false, isPrimaryKey := false, references := none },
           { name := "d", dataType := "TEXT", nullable := true, defaultValue := none,
             isUnique := false, isPrimaryKey := false, references := none }],
        primaryKey := ["id"], foreignKeys := [], uniqueConstraints := [],
        sourceFile := "students.sql" } = 164 :=
  node_height_formula.2.2 _ (by rfl)

end Runway

namespace Runway

/-- C5: the layout effect honors the persisted positions verbatim when
(and only when) every current node has a saved position; as soon as one
current node lacks a saved position, the whole layout is recomputed by
the layout algorithm. -/
theorem saved_positions_honored_iff_complete
    (layoutAlg : List LayoutNode → List LayoutNode)
    (saved : List (String × Pos)) (nodes : List LayoutNode)
    (h : nodes ≠ []) :
    ((∀ n ∈ nodes, (lookupPos saved n.id).isSome = true) →
        applySavedOrLayout layoutAlg saved nodes =
          nodes.map (fun n => { n with position := (lookupPos saved n.id).getD n.position }))
  ∧ ((∃ n ∈ nodes, lookupPos saved n.id = none) →
        applySavedOrLayout layoutAlg saved nodes = layoutAlg nodes) := by
  constructor
  · intro hall
    have hA : nodes.all (fun n => (lookupPos saved n.id).isSome) = true := by
      rw [List.all_eq_true]
      exact hall
    have hs : 0 < saved.length := by
      obtain ⟨n0, hn0⟩ := List.exists_mem_of_ne_nil nodes h
      have h0 := hall n0 hn0
      cases hsv : saved with
      | nil => rw [hsv] at h0; simp [lookupPos] at h0
      | cons a l => simp [hsv]
    simp [applySavedOrLayout, hA, hs]
  · rintro ⟨n0, hn0, hnone⟩
    have hA : nodes.all (fun n => (lookupPos saved n.id).isSome) = false := by
      rw [List.all_eq_false]
      exact ⟨n0, hn0, by simp [hnone]⟩
    simp [applySavedOrLayout, hA]

/-- Witness for `saved_positions_honored_iff_complete`: one node with a
saved position is placed at that position verbatim, and with an empty
saved mapping the layout algorithm's output is used. -/
theorem saved_positions_honored_witness :
    applySavedOrLayout (fun ns => ns) [("users", { x := 5, y := 7 })]
        [{ id := "users", position := { x := 0, y := 0 } }]
      = [{ id := "users", position := { x := 5, y := 7 } }] := by
  have h := saved_positions_honored_iff_complete (fun ns => ns)
    [("users", { x := 5, y := 7 })] [{ id := "users", position := { x := 0, y := 0 } }]
    (by simp)
  rw [h.1 (by decide)]
  rfl

end Runway

namespace Runway

/-- A one-foreign-key table for the 3-node cycle, pointing at
`target`. -/
def cycTable (n target : String) : Table :=
  let fk : ForeignKey :=
    { constraintName := none, columns := ["ref_id"],
      referencedTable := target, referencedColumns := ["ref_id"] }
  { name := n, columns := [], primaryKey := [], foreignKeys := [fk],
    uniqueConstraints := [], sourceFile := "schema.sql" }

/-- The A→B→C→A schema, its tables listed in the given order (the DFS
of `detectCircularDependencies` starts from the first table). -/
def threeCycleSchema (order : List String) : Schema :=
  { tables := order.map (fun n =>
      cycTable n (if n == "A" then "B" else if n == "B" then "C" else "A")),
    types := [], sequences := [] }

/-- All 6 table orders over A, B, C. -/
def threeCycleOrders : List (List String) :=
  [["A", "B", "C"], ["A", "C", "B"], ["B", "A", "C"],
   ["B", "C", "A"], ["C", "A", "B"], ["C", "B", "A"]]

/-- C9: on the 3-node cycle A→B→C→A, `detectCircularDependencies`
reports exactly one warning whatever table DFS starts from; the
reported cycle is canonicalized to start at the lexicographically
smallest member A and deduplicated by its joined ordered-sequence
key. -/
theorem cycle_reported_once_canonical (order : List String)
    (h : order ∈ threeCycleOrders) :
    detectCircularDependencies (threeCycleSchema order) =
      [{ severity := "warning", category := "Relationships", table := "A",
         tables := ["A", "B", "C"], sourceFile := "schema.sql",
         message := "Circular dependency detected: A -> B -> C -> A",
         suggestion := "Circular dependencies can cause issues with data insertion order. Consider using nullable FKs or restructuring the schema." }] := by
  fin_cases h <;> decide

/-- Witness for `cycle_reported_once_canonical`: the table order
B, C, A also yields the single canonical diagnostic. -/
theorem cycle_reported_once_canonical_witness :
    detectCircularDependencies (threeCycleSchema ["B", "C", "A"]) =
      [{ severity := "warning", category := "Relationships", table := "A",
         tables := ["A", "B", "C"], sourceFile := "schema.sql",
         message := "Circular dependency detected: A -> B -> C -> A",
         suggestion := "Circular dependencies can cause issues with data insertion order. Consider using nullable FKs or restructuring the schema." }] :=
  cycle_reported_once_canonical ["B", "C", "A"] (by simp [threeCycleOrders])

end Runway

namespace Runway

/-- C8: a parse failure in one file is isolated — the batch result is
the same as if the failing file were absent, except that one diagnostic
naming the failing file is recorded at its position in the loop order;
the failing file itself contributes the empty partial schema. -/
theorem parse_failure_isolated (pre post : List SourceFile) (bad : SourceFile)
    (e : String) (hbad : bad.content = Except.error e) :
    (parseAllFiles (pre ++ bad :: post)).1 = (parseAllFiles (pre ++ post)).1
  ∧ (parseAllFiles (pre ++ bad :: post)).2
      = parseDiags pre ++ Diag.parseFailure bad.path e :: parseDiags post
          ++ (resolveForeignKeys (mergedSchema (pre ++ post))).2
  ∧ fileSchema bad = { tables := [], types := [], sequences := [] } := by
  have hm : mergedSchema (pre ++ bad :: post) = mergedSchema (pre ++ post) := by
    simp [mergedSchema, fileSchema, hbad]
  have hd : parseDiags (pre ++ bad :: post)
      = parseDiags pre ++ Diag.parseFailure bad.path e :: parseDiags post := by
    simp [parseDiags, hbad]
  refine ⟨?_, ?_, ?_⟩
  · rw [parseAllFiles_eq, parseAllFiles_eq, hm]
  · rw [parseAllFiles_eq, hm, hd]
  · simp [fileSchema, hbad]

/-- Witness for `parse_failure_isolated`: a concrete two-file batch in
which the second file's parse failed. -/
theorem parse_failure_isolated_witness :
    ((parseAllFiles [⟨"users.sql", Except.ok
          [Statement.createTable "users"
            [TablePart.columnDef ⟨"id", "INT", ["PRIMARY", "KEY"], none, none⟩]]⟩,
        ⟨"broken.sql", Except.error "unexpected token"⟩]).1
      = (parseAllFiles [⟨"users.sql", Except.ok
          [Statement.createTable "users"
            [TablePart.columnDef ⟨"id", "INT", ["PRIMARY", "KEY"], none, none⟩]]⟩]).1)
  ∧ (parseAllFiles [⟨"users.sql", Except.ok
          [Statement.createTable "users"
            [TablePart.columnDef ⟨"id", "INT", ["PRIMARY", "KEY"], none, none⟩]]⟩,
        ⟨"broken.sql", Except.error "unexpected token"⟩]).2
      = [Diag.parseFailure "broken.sql" "unexpected token"] := by
  have h := parse_failure_isolated
    [⟨"users.sql", Except.ok
        [Statement.createTable "users"
          [TablePart.columnDef ⟨"id", "INT", ["PRIMARY", "KEY"], none, none⟩]]⟩]
    [] ⟨"broken.sql", Except.error "unexpected token"⟩ "unexpected token" rfl
  have h1 := h.1
  have h2 := h.2.1
  simp only [List.singleton_append, List.append_nil, List.nil_append] at h1 h2
  refine ⟨h1, ?_⟩
  rw [h2]
  decide

end Runway

namespace Runway

/-! ## Foreign-key length bookkeeping (claim on
`len(columns) == len(referencedColumns)`) -/

/-- Does a foreign key have as many source as referenced columns? -/
def fkLenOk (fk : ForeignKey) : Bool :=
  fk.columns.length == fk.referencedColumns.length

/-- Do all foreign keys of a table have matching column counts? -/
def tableFkLensOk (t : Table) : Bool := t.foreignKeys.all fkLenOk

/-- A table-body part declares no explicitly mismatched referenced-column
list: a table-level `FOREIGN KEY` either omits the referenced columns or
lists as many as source columns, and an inline `REFERENCES` either omits
them or lists exactly one. -/
def partFkLenOk : TablePart → Bool
  | .fkConstraint _ rawCols _ (some rcs) => rcs.length == rawCols.length
  | .columnDef d =>
    (match d.refCapture with
      | some r =>
        (match r.colsOpt with
          | some cs => cs.length == 1
          | none => true)
      | none => true)
  | _ => true

/-- Statement-level version of `partFkLenOk`. -/
def stmtFkLenOk : Statement → Bool
  | .createTable _ parts => parts.all partFkLenOk
  | .alterAddFk _ _ rawCols _ (some rcs) => rcs.length == rawCols.length
  | _ => true

/-- File-level version of `stmtFkLenOk`. -/
def fileFkLenOk (f : SourceFile) : Bool :=
  match f.content with
  | .ok stmts => stmts.all stmtFkLenOk
  | .error _ => true

/-- The `references` field computed by `parseColumn`. -/
theorem parseColumn_references (d : ColumnDef) :
    (parseColumn d).references =
      (match d.refCapture with
        | some r => some ⟨cleanIdentifier r.table,
            (match r.colsOpt with
              | some cols => cols.map (fun s => cleanIdentifier (strTrim s))
              | none => [cleanIdentifier d.rawName])⟩
        | none => none) := by
  unfold parseColumn
  cases hnn : hasNotNull d.constraintTokens <;>
    cases hpk : hasPrimaryKeyMarker d.constraintTokens <;>
    cases hn : hasNullWord d.constraintTokens <;>
    cases hu : hasUniqueWord d.constraintTokens <;>
    cases hdc : d.defaultCapture <;>
    cases hrc : d.refCapture <;>
    simp [hnn, hpk, hn, hu]

end Runway

namespace Runway

/-- One table-body step preserves the matching-length property of a
table's foreign keys. -/
theorem applyTablePart_fkLens (t : Table) (part : TablePart)
    (ht : tableFkLensOk t = true) (hp : partFkLenOk part = true) :
    tableFkLensOk (applyTablePart t part) = true := by
  cases part with
  | pkConstraint rawCols => simpa [applyTablePart, tableFkLensOk] using ht
  | uniqueConstraint rawCols => simpa [applyTablePart, tableFkLensOk] using ht
  | unparsable => simpa [applyTablePart, tableFkLensOk] using ht
  | fkConstraint rawName rawCols rawRefTable rawRefColsOpt =>
    cases rawRefColsOpt with
    | none =>
      simp only [applyTablePart, tableFkLensOk, List.all_append] at ht ⊢
      simp [ht, fkLenOk]
    | some rcs =>
      simp only [partFkLenOk, beq_iff_eq] at hp
      simp only [applyTablePart, tableFkLensOk, List.all_append] at ht ⊢
      simp [ht, fkLenOk, hp]
  | columnDef d =>
    have href := parseColumn_references d
    cases hrc : d.refCapture with
    | none =>
      rw [hrc] at href
      simp only [applyTablePart, href]
      split <;> simpa [tableFkLensOk] using ht
    | some r =>
      rw [hrc] at href
      simp only [partFkLenOk, hrc] at hp
      simp only [applyTablePart, href]
      have hlen :
          (match r.colsOpt with
            | some cols => cols.map (fun s => cleanIdentifier (strTrim s))
            | none => [cleanIdentifier d.rawName]).length = 1 := by
        cases hco : r.colsOpt with
        | none => simp
        | some cs =>
          rw [hco] at hp
          simp only [beq_iff_eq] at hp
          simp [hp]
      split <;>
        · simp only [tableFkLensOk, List.all_append] at ht ⊢
          simp [ht, fkLenOk, hlen]

end Runway

namespace Runway

/-- Folding a table body preserves matching foreign-key lengths. -/
theorem parseTableBody_fkLens (parts : List TablePart) (t : Table)
    (hall : parts.all partFkLenOk = true) (ht : tableFkLensOk t = true) :
    tableFkLensOk (parseTableBody parts t) = true := by
  induction parts generalizing t with
  | nil => simpa [parseTableBody] using ht
  | cons p rest ih =>
    simp only [List.all_cons, Bool.and_eq_true] at hall
    simpa [parseTableBody] using
      ih (applyTablePart t p) hall.2 (applyTablePart_fkLens t p ht hall.1)

/-- Every table built by `parseTables` from well-formed statements has
matching foreign-key lengths. -/
theorem parseTables_fkLens (stmts : List Statement) (sf : String)
    (hall : stmts.all stmtFkLenOk = true) :
    ∀ t ∈ parseTables stmts sf, tableFkLensOk t = true := by
  intro t ht
  simp only [parseTables, List.mem_filterMap] at ht
  obtain ⟨s, hs, heq⟩ := ht
  have hsok := (List.all_eq_true.1 hall) s hs
  cases s with
  | createTable rawName parts =>
    simp only [Option.some.injEq] at heq
    subst heq
    exact parseTableBody_fkLens parts _ (by simpa [stmtFkLenOk] using hsok) rfl
  | createType a b => simp at heq
  | createSequence a b c => simp at heq
  | alterAddFk a b c dd ee => simp at heq

/-- Appending a length-matching foreign key to the first matching table
preserves matching lengths everywhere. -/
theorem addFkToFirst_fkLens (tables : List Table) (n : String) (fk : ForeignKey)
    (hall : ∀ t ∈ tables, tableFkLensOk t = true) (hfk : fkLenOk fk = true) :
    ∀ t ∈ addFkToFirst tables n fk, tableFkLensOk t = true := by
  induction tables with
  | nil => simp [addFkToFirst]
  | cons t0 rest ih =>
    intro t ht
    simp only [addFkToFirst] at ht
    by_cases h : t0.name = n
    · rw [if_pos h] at ht
      rcases List.mem_cons.1 ht with h1 | h2
      · subst h1
        have := hall t0 (List.mem_cons_self t0 rest)
        simp only [tableFkLensOk, List.all_append] at this ⊢
        simp [this, hfk]
      · exact hall t (List.mem_cons_of_mem _ h2)
    · rw [if_neg h] at ht
      rcases List.mem_cons.1 ht with h1 | h2
      · subst h1; exact hall t (List.mem_cons_self t rest)
      · exact ih (fun x hx => hall x (List.mem_cons_of_mem _ hx)) t h2

/-- The foreign key built by an alter statement with no explicitly
mismatched referenced-column list has matching lengths. -/
theorem alterFk_fkLens (rawConstraint : Option String) (rawCols : List String)
    (rawRefTable : String) (rawRefColsOpt : Option (List String))
    (h : ∀ rcs, rawRefColsOpt = some rcs → rcs.length = rawCols.length) :
    fkLenOk (alterFk rawConstraint rawCols rawRefTable rawRefColsOpt) = true := by
  cases hrc : rawRefColsOpt with
  | none => simp [alterFk, fkLenOk]
  | some rcs => simp [alterFk, fkLenOk, h rcs hrc]

/-- The alter loop preserves matching foreign-key lengths. -/
theorem parseAlterTables_fkLens (stmts : List Statement) (tables : List Table)
    (hstmts : stmts.all stmtFkLenOk = true)
    (hall : ∀ t ∈ tables, tableFkLensOk t = true) :
    ∀ t ∈ parseAlterTables stmts tables, tableFkLensOk t = true := by
  induction stmts generalizing tables with
  | nil => simpa [parseAlterTables] using hall
  | cons s rest ih =>
    simp only [List.all_cons, Bool.and_eq_true] at hstmts
    have hstep : ∀ t ∈ alterStep tables s, tableFkLensOk t = true := by
      cases s with
      | alterAddFk rawTable rawConstraint rawCols rawRefTable rawRefColsOpt =>
        refine addFkToFirst_fkLens tables _ _ hall
          (alterFk_fkLens rawConstraint rawCols rawRefTable rawRefColsOpt ?_)
        intro rcs hrc
        have h1 := hstmts.1
        rw [hrc] at h1
        simpa [stmtFkLenOk] using h1
      | createTable a b => simpa [alterStep] using hall
      | createType a b => simpa [alterStep] using hall
      | createSequence a b c => simpa [alterStep] using hall
    simpa [parseAlterTables] using ih (alterStep tables s) hstmts.2 hstep

end Runway

namespace Runway

/-- Every table of a well-formed file's partial schema has matching
foreign-key lengths. -/
theorem fileSchema_fkLens (f : SourceFile) (h : fileFkLenOk f = true) :
    ∀ t ∈ (fileSchema f).tables, tableFkLensOk t = true := by
  cases hc : f.content with
  | ok stmts =>
    intro t ht
    simp only [fileSchema, hc] at ht
    simp only [fileFkLenOk, hc] at h
    simp only [parseDDL] at ht
    exact parseAlterTables_fkLens stmts _ h (parseTables_fkLens stmts f.path h) t ht
  | error e => simp [fileSchema, hc]

/-- Every table of the merged batch schema built from well-formed files
has matching foreign-key lengths. -/
theorem mergedSchema_fkLens (files : List SourceFile)
    (h : files.all fileFkLenOk = true) :
    ∀ t ∈ (mergedSchema files).tables, tableFkLensOk t = true := by
  intro t ht
  simp only [mergedSchema, List.mem_flatMap] at ht
  obtain ⟨f, hf, htf⟩ := ht
  exact fileSchema_fkLens f ((List.all_eq_true.1 h) f hf) t htf

/-- C1 (amended): provided no foreign-key declaration carries an
explicit referenced-column list of a different length than its
source-column list (inline `REFERENCES` lists of length ≠ 1 included),
every foreign key of the resolved batch schema satisfies
`len(columns) = len(referencedColumns)`.  The default — omitting the
referenced columns — always satisfies this. -/
theorem fk_lengths_match_of_wellformed (files : List SourceFile)
    (h : files.all fileFkLenOk = true) :
    ∀ t ∈ (parseAllFiles files).1.tables, ∀ fk ∈ t.foreignKeys,
      fk.columns.length = fk.referencedColumns.length := by
  intro t ht fk hfk
  rw [parseAllFiles_eq] at ht
  simp only [resolveForeignKeys, List.mem_map] at ht
  obtain ⟨t0, ht0, rfl⟩ := ht
  simp only [List.mem_filter] at hfk
  have := mergedSchema_fkLens files h t0 ht0
  simp only [tableFkLensOk, List.all_eq_true] at this
  have := this fk hfk.1
  simpa [fkLenOk] using this

/-- Witness for `fk_lengths_match_of_wellformed`: a batch with a
table-level foreign key without explicit referenced columns, an inline
reference, and an alter statement. -/
theorem fk_lengths_match_witness :
    (List.all
      [SourceFile.mk "users.sql" (Except.ok
        [Statement.createTable "users"
          [TablePart.columnDef ⟨"id", "INT", ["PRIMARY", "KEY"], none, none⟩],
         Statement.createTable "orders"
          [TablePart.columnDef ⟨"id", "INT", ["PRIMARY", "KEY"], none, none⟩,
           TablePart.columnDef ⟨"user_id", "INT", ["NOT", "NULL"], none,
             some ⟨"users", some ["id"]⟩⟩,
           TablePart.fkConstraint (some "fk_u") ["user_id"] "users" none],
         Statement.alterAddFk "orders" (some "fk_v") ["user_id"] "users" (some ["id"])])]
      fileFkLenOk = true)
  ∧ (∀ t ∈ (parseAllFiles
      [SourceFile.mk "users.sql" (Except.ok
        [Statement.createTable "users"
          [TablePart.columnDef ⟨"id", "INT", ["PRIMARY", "KEY"], none, none⟩],
         Statement.createTable "orders"
          [TablePart.columnDef ⟨"id", "INT", ["PRIMARY", "KEY"], none, none⟩,
           TablePart.columnDef ⟨"user_id", "INT", ["NOT", "NULL"], none,
             some ⟨"users", some ["id"]⟩⟩,
           TablePart.fkConstraint (some "fk_u") ["user_id"] "users" none],
         Statement.alterAddFk "orders" (some "fk_v") ["user_id"] "users" (some ["id"])])]).1.tables,
      ∀ fk ∈ t.foreignKeys, fk.columns.length = fk.referencedColumns.length) :=
  ⟨by decide, fk_lengths_match_of_wellformed _ (by decide)⟩

/-- C1 (counterexample): a table-level foreign key declared with two
source columns but an explicit one-element referenced-column list
survives resolution (its target table exists), so the resolved model
contains a foreign key with `len(columns) ≠ len(referencedColumns)`. -/
theorem fk_length_invariant_counterexample :
    ∃ t ∈ (parseAllFiles [SourceFile.mk "f.sql" (Except.ok
        [Statement.createTable "t"
          [TablePart.fkConstraint none ["a", "b"] "t" (some ["c"])]])]).1.tables,
      ∃ fk ∈ t.foreignKeys, fk.columns.length ≠ fk.referencedColumns.length := by
  decide

end Runway

namespace Runway

/-! ## Facts about `addFkToFirst` and the alter loop -/

/-- Adding a foreign key never changes the table-name list. -/
theorem addFkToFirst_map_name (tables : List Table) (n : String) (fk : ForeignKey) :
    (addFkToFirst tables n fk).map (fun t => t.name) = tables.map (fun t => t.name) := by
  induction tables with
  | nil => rfl
  | cons t rest ih => by_cases h : t.name = n <;> simp [addFkToFirst, h, ih]

/-- When no table matches, `tables.find(...)` fails and the list is
returned unchanged. -/
theorem addFkToFirst_eq_of_no_match (tables : List Table) (n : String)
    (fk : ForeignKey) (h : ∀ t ∈ tables, t.name ≠ n) :
    addFkToFirst tables n fk = tables := by
  induction tables with
  | nil => rfl
  | cons t rest ih =>
    simp only [addFkToFirst, if_neg (h t (List.mem_cons_self t rest))]
    rw [ih (fun x hx => h x (List.mem_cons_of_mem _ hx))]

/-- When some table matches, the foreign key ends up on a table of that
name. -/
theorem addFkToFirst_adds (tables : List Table) (n : String) (fk : ForeignKey)
    (h : ∃ t ∈ tables, t.name = n) :
    ∃ t ∈ addFkToFirst tables n fk, t.name = n ∧ fk ∈ t.foreignKeys := by
  induction tables with
  | nil => simp at h
  | cons t0 rest ih =>
    by_cases h0 : t0.name = n
    · refine ⟨{ t0 with foreignKeys := t0.foreignKeys ++ [fk] }, ?_, h0, by simp⟩
      simp [addFkToFirst, h0]
    · obtain ⟨t, ht, hn⟩ := h
      rcases List.mem_cons.1 ht with rfl | htail
      · exact absurd hn h0
      · obtain ⟨t', ht', h'⟩ := ih ⟨t, htail, hn⟩
        exact ⟨t', by simp [addFkToFirst, h0, List.mem_cons]; right; exact ht', h'⟩

/-- Adding a foreign key preserves any already-present (name, key)
association. -/
theorem addFkToFirst_preserves (tables : List Table) (m : String) (fk : ForeignKey)
    (n' : String) (fk' : ForeignKey)
    (h : ∃ t ∈ tables, t.name = m ∧ fk ∈ t.foreignKeys) :
    ∃ t ∈ addFkToFirst tables n' fk', t.name = m ∧ fk ∈ t.foreignKeys := by
  induction tables with
  | nil => simp at h
  | cons t0 rest ih =>
    obtain ⟨t, ht, hname, hfk⟩ := h
    by_cases h0 : t0.name = n'
    · rcases List.mem_cons.1 ht with rfl | htail
      · refine ⟨{ t with foreignKeys := t.foreignKeys ++ [fk'] }, ?_, hname, ?_⟩
        · simp [addFkToFirst, h0]
        · exact List.mem_append_left _ hfk
      · exact ⟨t, by simp [addFkToFirst, h0, List.mem_cons]; right; exact htail,
          hname, hfk⟩
    · rcases List.mem_cons.1 ht with rfl | htail
      · exact ⟨t, by simp [addFkToFirst, h0], hname, hfk⟩
      · obtain ⟨t', ht', h'⟩ := ih ⟨t, htail, ⟨hname, hfk⟩⟩
        exact ⟨t', by simp [addFkToFirst, h0, List.mem_cons]; right; exact ht', h'⟩

/-- One alter-loop step never changes the table-name list. -/
theorem alterStep_map_name (tables : List Table) (s : Statement) :
    (alterStep tables s).map (fun t => t.name) = tables.map (fun t => t.name) := by
  cases s <;> simp [alterStep, addFkToFirst_map_name]

/-- The alter loop never changes the table-name list. -/
theorem parseAlterTables_map_name (stmts : List Statement) (tables : List Table) :
    (parseAlterTables stmts tables).map (fun t => t.name)
      = tables.map (fun t => t.name) := by
  induction stmts generalizing tables with
  | nil => rfl
  | cons s rest ih =>
    simpa [parseAlterTables] using
      (ih (alterStep tables s)).trans (alterStep_map_name tables s)

/-- One alter-loop step preserves any (name, key) association. -/
theorem alterStep_preserves (tables : List Table) (s : Statement)
    (m : String) (fk : ForeignKey)
    (h : ∃ t ∈ tables, t.name = m ∧ fk ∈ t.foreignKeys) :
    ∃ t ∈ alterStep tables s, t.name = m ∧ fk ∈ t.foreignKeys := by
  cases s with
  | alterAddFk a b c d e => exact addFkToFirst_preserves tables m fk _ _ h
  | createTable a b => simpa [alterStep] using h
  | createType a b => simpa [alterStep] using h
  | createSequence a b c => simpa [alterStep] using h

/-- The alter loop preserves any (name, key) association. -/
theorem parseAlterTables_preserves (stmts : List Statement) (tables : List Table)
    (m : String) (fk : ForeignKey)
    (h : ∃ t ∈ tables, t.name = m ∧ fk ∈ t.foreignKeys) :
    ∃ t ∈ parseAlterTables stmts tables, t.name = m ∧ fk ∈ t.foreignKeys := by
  induction stmts generalizing tables with
  | nil => simpa [parseAlterTables] using h
  | cons s rest ih =>
    simpa [parseAlterTables] using ih (alterStep tables s) (alterStep_preserves tables s m fk h)

/-- Splitting the alter loop at an append. -/
theorem parseAlterTables_append (l1 l2 : List Statement) (tables : List Table) :
    parseAlterTables (l1 ++ l2) tables = parseAlterTables l2 (parseAlterTables l1 tables) := by
  simp [parseAlterTables, List.foldl_append]

/-- Unfolding the first step of the alter loop. -/
theorem parseAlterTables_cons (s : Statement) (rest : List Statement)
    (tables : List Table) :
    parseAlterTables (s :: rest) tables = parseAlterTables rest (alterStep tables s) := rfl

end Runway

namespace Runway

/-- An alter statement contributes nothing to `parseTypes`. -/
theorem parseTypes_erase_alter (pre post : List Statement) (sf : String)
    (rawT : String) (rawC : Option String) (rawCols : List String)
    (rawRef : String) (rawRcs : Option (List String)) :
    parseTypes (pre ++ Statement.alterAddFk rawT rawC rawCols rawRef rawRcs :: post) sf
      = parseTypes (pre ++ post) sf := by
  simp [parseTypes, List.filterMap_append]

/-- An alter statement contributes nothing to `parseSequences`. -/
theorem parseSequences_erase_alter (pre post : List Statement) (sf : String)
    (rawT : String) (rawC : Option String) (rawCols : List String)
    (rawRef : String) (rawRcs : Option (List String)) :
    parseSequences (pre ++ Statement.alterAddFk rawT rawC rawCols rawRef rawRcs :: post) sf
      = parseSequences (pre ++ post) sf := by
  simp [parseSequences, List.filterMap_append]

/-- An alter statement contributes nothing to `parseTables`. -/
theorem parseTables_erase_alter (pre post : List Statement) (sf : String)
    (rawT : String) (rawC : Option String) (rawCols : List String)
    (rawRef : String) (rawRcs : Option (List String)) :
    parseTables (pre ++ Statement.alterAddFk rawT rawC rawCols rawRef rawRcs :: post) sf
      = parseTables (pre ++ post) sf := by
  simp [parseTables, List.filterMap_append]

/-- An alter statement whose target table is not declared in the same
file is a no-op for the whole of `parseDDL`. -/
theorem parseDDL_erase_dead_alter (pre post : List Statement) (sf : String)
    (rawT : String) (rawC : Option String) (rawCols : List String)
    (rawRef : String) (rawRcs : Option (List String))
    (h : ∀ t ∈ parseTables
          (pre ++ Statement.alterAddFk rawT rawC rawCols rawRef rawRcs :: post) sf,
        t.name ≠ cleanIdentifier rawT) :
    parseDDL (pre ++ Statement.alterAddFk rawT rawC rawCols rawRef rawRcs :: post) sf
      = parseDDL (pre ++ post) sf := by
  have htab := parseTables_erase_alter pre post sf rawT rawC rawCols rawRef rawRcs
  simp only [parseDDL, parseTypes_erase_alter, parseSequences_erase_alter, htab]
  congr 1
  rw [parseAlterTables_append, parseAlterTables_append]
  have hstep :
      alterStep (parseAlterTables pre (parseTables (pre ++ post) sf))
          (Statement.alterAddFk rawT rawC rawCols rawRef rawRcs)
        = parseAlterTables pre (parseTables (pre ++ post) sf) := by
    simp only [alterStep]
    refine addFkToFirst_eq_of_no_match _ _ _ ?_
    intro t ht
    have hmem : t.name ∈ (parseAlterTables pre
        (parseTables (pre ++ post) sf)).map (fun t => t.name) :=
      List.mem_map_of_mem _ ht
    rw [parseAlterTables_map_name] at hmem
    obtain ⟨t0, ht0, hname⟩ := List.mem_map.1 hmem
    rw [← hname]
    exact h t0 (by rw [htab]; exact ht0)
  rw [parseAlterTables_cons, hstep]

end Runway

namespace Runway

/-- C2 (counterexample): `users.sql` declares table `users`;
`orders.sql` holds only `ALTER TABLE users ADD CONSTRAINT fk_x FOREIGN
KEY (id) REFERENCES users`.  The target table exists at merge time, yet
the batch result contains `users` with no foreign key: the alter was
matched against `orders.sql`'s own (empty) table list and silently
dropped, contradicting the claimed whole-batch application. -/
theorem alter_cross_file_counterexample :
    ((parseAllFiles [
        SourceFile.mk "users.sql" (Except.ok [Statement.createTable "users"
          [TablePart.columnDef ⟨"id", "INT", ["PRIMARY", "KEY"], none, none⟩]]),
        SourceFile.mk "orders.sql" (Except.ok
          [Statement.alterAddFk "users" (some "fk_x") ["id"] "users" none])]).1.tables.map
      (fun t => (t.name, t.foreignKeys)))
      = [("users", [])] := by
  decide

/-- C2 (amended): every recorded `ALTER TABLE ADD CONSTRAINT FOREIGN
KEY` is applied against the table list of its *own file* only.  If no
same-file table matches the target name the alter is silently dropped —
even when the target table is declared in another file of the batch —
and if a same-file table matches, the foreign key is added to it (and
survives resolution when its referenced table exists in the batch). -/
theorem alter_applied_same_file_only
    (F1 F2 : List SourceFile) (path : String) (pre post : List Statement)
    (rawT : String) (rawC : Option String) (rawCols : List String)
    (rawRef : String) (rawRcs : Option (List String)) :
    ((∀ t ∈ parseTables
          (pre ++ Statement.alterAddFk rawT rawC rawCols rawRef rawRcs :: post) path,
        t.name ≠ cleanIdentifier rawT) →
      parseAllFiles (F1 ++ SourceFile.mk path
          (Except.ok (pre ++ Statement.alterAddFk rawT rawC rawCols rawRef rawRcs :: post)) :: F2)
        = parseAllFiles (F1 ++ SourceFile.mk path (Except.ok (pre ++ post)) :: F2))
  ∧ ((∃ t ∈ parseTables
          (pre ++ Statement.alterAddFk rawT rawC rawCols rawRef rawRcs :: post) path,
        t.name = cleanIdentifier rawT) →
     (((mergedSchema (F1 ++ SourceFile.mk path
            (Except.ok (pre ++ Statement.alterAddFk rawT rawC rawCols rawRef rawRcs :: post)) :: F2)).tables.map
          (fun t => t.name)).contains (cleanIdentifier rawRef)) = true →
      ∃ t ∈ (parseAllFiles (F1 ++ SourceFile.mk path
          (Except.ok (pre ++ Statement.alterAddFk rawT rawC rawCols rawRef rawRcs :: post)) :: F2)).1.tables,
        t.name = cleanIdentifier rawT
          ∧ alterFk rawC rawCols rawRef rawRcs ∈ t.foreignKeys) := by
  constructor
  · intro hnone
    have hddl := parseDDL_erase_dead_alter pre post path rawT rawC rawCols rawRef rawRcs hnone
    have hm : mergedSchema (F1 ++ SourceFile.mk path
          (Except.ok (pre ++ Statement.alterAddFk rawT rawC rawCols rawRef rawRcs :: post)) :: F2)
        = mergedSchema (F1 ++ SourceFile.mk path (Except.ok (pre ++ post)) :: F2) := by
      simp [mergedSchema, fileSchema, hddl]
    have hd : parseDiags (F1 ++ SourceFile.mk path
          (Except.ok (pre ++ Statement.alterAddFk rawT rawC rawCols rawRef rawRcs :: post)) :: F2)
        = parseDiags (F1 ++ SourceFile.mk path (Except.ok (pre ++ post)) :: F2) := by
      simp [parseDiags]
    rw [parseAllFiles_eq, parseAllFiles_eq, hm, hd]
  · intro hsome hcontains
    -- inside the file: the alter's key lands on a same-file table
    have htbl :
        ∃ t ∈ (parseDDL
            (pre ++ Statement.alterAddFk rawT rawC rawCols rawRef rawRcs :: post) path).tables,
          t.name = cleanIdentifier rawT
            ∧ alterFk rawC rawCols rawRef rawRcs ∈ t.foreignKeys := by
      simp only [parseDDL]
      rw [parseAlterTables_append, parseAlterTables_cons]
      refine parseAlterTables_preserves post _ _ _ ?_
      simp only [alterStep]
      refine addFkToFirst_adds _ _ _ ?_
      obtain ⟨t0, ht0, hname⟩ := hsome
      have hmem : t0.name ∈ (parseTables
          (pre ++ Statement.alterAddFk rawT rawC rawCols rawRef rawRcs :: post) path).map
            (fun t => t.name) := List.mem_map_of_mem _ ht0
      rw [← parseAlterTables_map_name pre] at hmem
      obtain ⟨t1, ht1, hname1⟩ := List.mem_map.1 hmem
      exact ⟨t1, ht1, hname1.trans hname⟩
    -- lift to the merged batch schema
    obtain ⟨t, ht, hname, hfk⟩ := htbl
    have hmerged : t ∈ (mergedSchema (F1 ++ SourceFile.mk path
        (Except.ok (pre ++ Statement.alterAddFk rawT rawC rawCols rawRef rawRcs :: post)) :: F2)).tables := by
      simp only [mergedSchema, List.mem_flatMap]
      exact ⟨SourceFile.mk path
          (Except.ok (pre ++ Statement.alterAddFk rawT rawC rawCols rawRef rawRcs :: post)),
        List.mem_append_right _ (List.mem_cons_self _ _), by simpa [fileSchema] using ht⟩
    -- resolution keeps the key because its target exists in the batch
    rw [parseAllFiles_eq]
    refine ⟨{ t with foreignKeys := t.foreignKeys.filter (fun fk =>
        ((mergedSchema (F1 ++ SourceFile.mk path
            (Except.ok (pre ++ Statement.alterAddFk rawT rawC rawCols rawRef rawRcs :: post)) :: F2)).tables.map
          (fun tb => tb.name)).contains fk.referencedTable) }, ?_, hname, ?_⟩
    · simp only [resolveForeignKeys, List.mem_map]
      exact ⟨t, hmerged, rfl⟩
    · rw [List.mem_filter]
      refine ⟨hfk, ?_⟩
      simpa [alterFk] using hcontains

end Runway

namespace Runway

/-- Witness for `alter_applied_same_file_only`: a single file declaring
`users` and altering it gets the foreign key applied. -/
theorem alter_applied_same_file_witness :
    ∃ t ∈ (parseAllFiles [SourceFile.mk "one.sql" (Except.ok
        [Statement.createTable "users"
          [TablePart.columnDef ⟨"id", "INT", ["PRIMARY", "KEY"], none, none⟩],
         Statement.alterAddFk "users" (some "fk_x") ["user_id"] "users" none])]).1.tables,
      t.name = cleanIdentifier "users"
        ∧ alterFk (some "fk_x") ["user_id"] "users" none ∈ t.foreignKeys := by
  have h := (alter_applied_same_file_only [] [] "one.sql"
      [Statement.createTable "users"
        [TablePart.columnDef ⟨"id", "INT", ["PRIMARY", "KEY"], none, none⟩]] []
      "users" (some "fk_x") ["user_id"] "users" none).2 (by decide) (by decide)
  simpa using h

end Runway

namespace Runway

/-- Concrete batch for the resolution witness: `orders` references the
present table `users` and the absent table `missing`. -/
def resolutionWitnessFiles : List SourceFile :=
  [SourceFile.mk "a.sql" (Except.ok
    [Statement.createTable "users"
      [TablePart.columnDef ⟨"id", "INT", ["PRIMARY", "KEY"], none, none⟩],
     Statement.createTable "orders"
      [TablePart.fkConstraint none ["uid"] "users" none,
       TablePart.fkConstraint none ["mid"] "missing" none]])]

/-- Witness for `resolution_drops_dangling_one_diag_each`: on the
concrete batch the surviving foreign key's target is a present table,
and the diagnostic count balances the dropped key. -/
theorem resolution_drops_witness :
    ((((parseAllFiles resolutionWitnessFiles).1.tables.map (fun tb => tb.name)).contains
        (ForeignKey.mk none ["uid"] "users" ["uid"]).referencedTable) = true)
  ∧ ((parseAllFiles resolutionWitnessFiles).2.countP (fun d => isUnknownFkDiag d)
      + totalFks (parseAllFiles resolutionWitnessFiles).1.tables
      = totalFks (mergedSchema resolutionWitnessFiles).tables) :=
  ⟨(resolution_drops_dangling_one_diag_each resolutionWitnessFiles).1
      (Table.mk "orders" [] [] [ForeignKey.mk none ["uid"] "users" ["uid"]] [] "a.sql")
      (by decide) (ForeignKey.mk none ["uid"] "users" ["uid"]) (by decide),
   (resolution_drops_dangling_one_diag_each resolutionWitnessFiles).2⟩

/-- Witness for `parseColumn_nullable_primaryKey`: a column marked both
`PRIMARY KEY` and `NULL` still ends up non-nullable. -/
theorem parseColumn_nullable_witness :
    (parseColumn ⟨"status", "TEXT", ["PRIMARY", "KEY", "NULL"], none, none⟩).nullable
      = false :=
  (parseColumn_nullable_primaryKey ⟨"status", "TEXT", ["PRIMARY", "KEY", "NULL"], none, none⟩).2
    (by decide)

end Runway

